import Mathlib

/-
  Verification development for the Chorus session-orchestration engine
  (Python sources under src/): the stream-JSON event parser
  (services/json_parser.py), the per-task JSON event monitor
  (services/json_monitor.py), the status detector and poller
  (services/status_detector.py, services/status_poller.py), the task
  completion/failure endpoints (api/tasks.py), the hook callback
  endpoints (api/hooks.py) and the tmux session enumeration
  (services/tmux.py).

  Python strings are embedded as `List Char`; the text operations the
  sources use (strip/split/join/slicing) are translated from CPython
  semantics on the ASCII fragment those sources exercise.
-/

abbrev Str := List Char

def chars (s : String) : Str := s.data

/-- ASCII characters stripped by Python `str.strip()` with no argument. -/
def isPyWs (c : Char) : Bool :=
  c = ' ' || c = '\t' || c = '\n' || c = '\r' || c = '\x0b' || c = '\x0c'

/-- Python `str.strip()` (ASCII whitespace; the sources strip ASCII text). -/
def pyStrip (s : Str) : Str :=
  ((s.dropWhile isPyWs).reverse.dropWhile isPyWs).reverse

/-- Python `str.split(c)` for a single-character separator: `""` splits to
`[""]`, separators at the ends produce empty parts. -/
def pySplit (c : Char) : Str → List Str
  | [] => [[]]
  | x :: xs =>
    match pySplit c xs with
    | [] => [[]]
    | r :: rs => if x = c then [] :: r :: rs else (x :: r) :: rs

/-- Python `c.join(parts)` for a single-character separator. -/
def joinSep (c : Char) : List Str → Str
  | [] => []
  | [r] => r
  | r :: rs => r ++ c :: joinSep c rs

/-- Python `l[-n:]`. -/
def takeLast (n : Nat) (l : List α) : List α := l.drop (l.length - n)

/-- JSON values, modelling the Python `json` module's parse results on the
fragment the sources exercise (objects, arrays, strings without `\u`
escapes, integer numerals, booleans, null). An object keeps its members in
source order; lookups take the last binding for a key, as later duplicate
keys overwrite earlier ones in a Python dict. -/
inductive JVal where
  | jstr  : Str → JVal
  | jnum  : Int → JVal
  | jbool : Bool → JVal
  | jnull : JVal
  | jarr  : List JVal → JVal
  | jobj  : List (Str × JVal) → JVal
deriving Repr

mutual

def JVal.decEq : (a b : JVal) → Decidable (a = b)
  | .jstr a, .jstr b =>
    match inferInstanceAs (Decidable (a = b)) with
    | isTrue h => isTrue (h ▸ rfl)
    | isFalse h => isFalse (fun hh => h (JVal.jstr.inj hh))
  | .jnum a, .jnum b =>
    match inferInstanceAs (Decidable (a = b)) with
    | isTrue h => isTrue (h ▸ rfl)
    | isFalse h => isFalse (fun hh => h (JVal.jnum.inj hh))
  | .jbool a, .jbool b =>
    match inferInstanceAs (Decidable (a = b)) with
    | isTrue h => isTrue (h ▸ rfl)
    | isFalse h => isFalse (fun hh => h (JVal.jbool.inj hh))
  | .jnull, .jnull => isTrue rfl
  | .jarr a, .jarr b =>
    match JVal.decEqArr a b with
    | isTrue h => isTrue (h ▸ rfl)
    | isFalse h => isFalse (fun hh => h (JVal.jarr.inj hh))
  | .jobj a, .jobj b =>
    match JVal.decEqObj a b with
    | isTrue h => isTrue (h ▸ rfl)
    | isFalse h => isFalse (fun hh => h (JVal.jobj.inj hh))
  | .jstr _, .jnum _ => isFalse (fun h => JVal.noConfusion h)
  | .jstr _, .jbool _ => isFalse (fun h => JVal.noConfusion h)
  | .jstr _, .jnull => isFalse (fun h => JVal.noConfusion h)
  | .jstr _, .jarr _ => isFalse (fun h => JVal.noConfusion h)
  | .jstr _, .jobj _ => isFalse (fun h => JVal.noConfusion h)
  | .jnum _, .jstr _ => isFalse (fun h => JVal.noConfusion h)
  | .jnum _, .jbool _ => isFalse (fun h => JVal.noConfusion h)
  | .jnum _, .jnull => isFalse (fun h => JVal.noConfusion h)
  | .jnum _, .jarr _ => isFalse (fun h => JVal.noConfusion h)
  | .jnum _, .jobj _ => isFalse (fun h => JVal.noConfusion h)
  | .jbool _, .jstr _ => isFalse (fun h => JVal.noConfusion h)
  | .jbool _, .jnum _ => isFalse (fun h => JVal.noConfusion h)
  | .jbool _, .jnull => isFalse (fun h => JVal.noConfusion h)
  | .jbool _, .jarr _ => isFalse (fun h => JVal.noConfusion h)
  | .jbool _, .jobj _ => isFalse (fun h => JVal.noConfusion h)
  | .jnull, .jstr _ => isFalse (fun h => JVal.noConfusion h)
  | .jnull, .jnum _ => isFalse (fun h => JVal.noConfusion h)
  | .jnull, .jbool _ => isFalse (fun h => JVal.noConfusion h)
  | .jnull, .jarr _ => isFalse (fun h => JVal.noConfusion h)
  | .jnull, .jobj _ => isFalse (fun h => JVal.noConfusion h)
  | .jarr _, .jstr _ => isFalse (fun h => JVal.noConfusion h)
  | .jarr _, .jnum _ => isFalse (fun h => JVal.noConfusion h)
  | .jarr _, .jbool _ => isFalse (fun h => JVal.noConfusion h)
  | .jarr _, .jnull => isFalse (fun h => JVal.noConfusion h)
  | .jarr _, .jobj _ => isFalse (fun h => JVal.noConfusion h)
  | .jobj _, .jstr _ => isFalse (fun h => JVal.noConfusion h)
  | .jobj _, .jnum _ => isFalse (fun h => JVal.noConfusion h)
  | .jobj _, .jbool _ => isFalse (fun h => JVal.noConfusion h)
  | .jobj _, .jnull => isFalse (fun h => JVal.noConfusion h)
  | .jobj _, .jarr _ => isFalse (fun h => JVal.noConfusion h)

def JVal.decEqArr : (a b : List JVal) → Decidable (a = b)
  | [], [] => isTrue rfl
  | [], _ :: _ => isFalse (fun h => List.noConfusion h)
  | _ :: _, [] => isFalse (fun h => List.noConfusion h)
  | x :: xs, y :: ys =>
    match JVal.decEq x y with
    | isFalse hx => isFalse (fun hh => hx (List.cons.inj hh).1)
    | isTrue hx =>
      match JVal.decEqArr xs ys with
      | isTrue ht => isTrue (by rw [hx, ht])
      | isFalse ht => isFalse (fun hh => ht (List.cons.inj hh).2)

def JVal.decEqObj : (a b : List (Str × JVal)) → Decidable (a = b)
  | [], [] => isTrue rfl
  | [], _ :: _ => isFalse (fun h => List.noConfusion h)
  | _ :: _, [] => isFalse (fun h => List.noConfusion h)
  | (k, v) :: xs, (k', v') :: ys =>
    match inferInstanceAs (Decidable (k = k')) with
    | isFalse hk =>
      isFalse (fun hh => hk (congrArg Prod.fst (List.cons.inj hh).1))
    | isTrue hk =>
      match JVal.decEq v v' with
      | isFalse hv =>
        isFalse (fun hh => hv (congrArg Prod.snd (List.cons.inj hh).1))
      | isTrue hv =>
        match JVal.decEqObj xs ys with
        | isTrue ht => isTrue (by rw [hk, hv, ht])
        | isFalse ht => isFalse (fun hh => ht (List.cons.inj hh).2)

end

instance : DecidableEq JVal := JVal.decEq

/-- Lookup of the last binding of key `k` (Python dict insertion ends up
with the last duplicate's value). -/
def assocLast (kvs : List (Str × JVal)) (k : Str) : Option JVal :=
  match kvs with
  | [] => none
  | (k', v) :: rest =>
    match assocLast rest k with
    | some r => some r
    | none => if k' = k then some v else none

/-- Python `d.get(k)` on a parsed JSON value (`none` when the value is not
a dict; in the monitor that case raises and is excluded by
`wellFormedEvent` below). -/
def jget (v : JVal) (k : Str) : Option JVal :=
  match v with
  | .jobj kvs => assocLast kvs k
  | _ => none

/-- Python `d.get(k, dflt)`. -/
def jgetD (v : JVal) (k : Str) (dflt : JVal) : JVal := (jget v k).getD dflt

/-- Python truthiness of a parsed JSON value. -/
def jtruthy : JVal → Bool
  | .jstr s => !s.isEmpty
  | .jnum n => n != 0
  | .jbool b => b
  | .jnull => false
  | .jarr l => !l.isEmpty
  | .jobj l => !l.isEmpty

/-- Python truthiness of `d.get(k)`-style optional values (`None` falsy). -/
def optTruthy : Option JVal → Bool
  | none => false
  | some v => jtruthy v

/-- JSON string escapes (the `\u` form is outside the modelled fragment). -/
def escChar (c : Char) : Option Char :=
  if c = '"' then some '"'
  else if c = '\\' then some '\\'
  else if c = '/' then some '/'
  else if c = 'n' then some '\n'
  else if c = 't' then some '\t'
  else if c = 'r' then some '\r'
  else if c = 'b' then some '\x08'
  else if c = 'f' then some '\x0c'
  else none

/-- Whitespace accepted between JSON tokens (RFC 8259, as in CPython). -/
def isJWs (c : Char) : Bool := c = ' ' || c = '\t' || c = '\n' || c = '\r'

def skipJWs (s : Str) : Str := s.dropWhile isJWs

/-- Body of a JSON string after the opening quote: returns the decoded
characters and the input after the closing quote. -/
def parseStrBody : Nat → Str → Option (Str × Str)
  | 0, _ => none
  | _ + 1, [] => none
  | fuel + 1, c :: rest =>
    if c = '"' then some ([], rest)
    else if c = '\\' then
      match rest with
      | [] => none
      | e :: rest2 =>
        match escChar e with
        | none => none
        | some d =>
          match parseStrBody fuel rest2 with
          | none => none
          | some (s, r) => some (d :: s, r)
    else
      match parseStrBody fuel rest with
      | none => none
      | some (s, r) => some (c :: s, r)

def isDigitCh (c : Char) : Bool := 48 ≤ c.toNat && c.toNat ≤ 57

def digitsToNat (ds : Str) : Nat := ds.foldl (fun a c => a * 10 + (c.toNat - 48)) 0

mutual
/-- Recursive-descent parser for one JSON value, modelling CPython's
`json` scanner on the fragment above. Fuel bounds the recursion;
`jsonLoads` supplies enough fuel for its input. -/
def parseVal : Nat → Str → Option (JVal × Str)
  | 0, _ => none
  | fuel + 1, s =>
    match skipJWs s with
    | [] => none
    | c :: rest =>
      if c = '\x7b' then
        match skipJWs rest with
        | '\x7d' :: r => some (.jobj [], r)
        | _ => parseMembers fuel rest []
      else if c = '[' then
        match skipJWs rest with
        | ']' :: r => some (.jarr [], r)
        | _ => parseItems fuel rest []
      else if c = '"' then
        match parseStrBody (rest.length + 1) rest with
        | some (str, r) => some (.jstr str, r)
        | none => none
      else if c = 't' then
        match rest with
        | 'r' :: 'u' :: 'e' :: r => some (.jbool true, r)
        | _ => none
      else if c = 'f' then
        match rest with
        | 'a' :: 'l' :: 's' :: 'e' :: r => some (.jbool false, r)
        | _ => none
      else if c = 'n' then
        match rest with
        | 'u' :: 'l' :: 'l' :: r => some (.jnull, r)
        | _ => none
      else if c = '-' then
        let ds := rest.takeWhile isDigitCh
        if ds.isEmpty then none
        else some (.jnum (-(digitsToNat ds : Int)), rest.drop ds.length)
      else if isDigitCh c then
        let ds := (c :: rest).takeWhile isDigitCh
        some (.jnum (digitsToNat ds : Int), (c :: rest).drop ds.length)
      else none

/-- Members of a JSON object after `\x7b`, at least one member present. -/
def parseMembers : Nat → Str → List (Str × JVal) → Option (JVal × Str)
  | 0, _, _ => none
  | fuel + 1, s, acc =>
    match skipJWs s with
    | '"' :: rest =>
      match parseStrBody (rest.length + 1) rest with
      | none => none
      | some (k, r1) =>
        match skipJWs r1 with
        | ':' :: r2 =>
          match parseVal fuel r2 with
          | none => none
          | some (v, r3) =>
            match skipJWs r3 with
            | ',' :: r4 => parseMembers fuel r4 (acc ++ [(k, v)])
            | '\x7d' :: r4 => some (.jobj (acc ++ [(k, v)]), r4)
            | _ => none
        | _ => none
    | _ => none

/-- Items of a JSON array after `[`, at least one item present. -/
def parseItems : Nat → Str → List JVal → Option (JVal × Str)
  | 0, _, _ => none
  | fuel + 1, s, acc =>
    match parseVal fuel s with
    | none => none
    | some (v, r) =>
      match skipJWs r with
      | ',' :: r2 => parseItems fuel r2 (acc ++ [v])
      | ']' :: r2 => some (.jarr (acc ++ [v]), r2)
      | _ => none
end

/-- Model of `json.loads`: parse one JSON document and require the whole
input be consumed (up to trailing whitespace); `none` models
`json.JSONDecodeError`. -/
def jsonLoads (s : Str) : Option JVal :=
  match parseVal (s.length + 1) s with
  | some (v, rest) => if skipJWs rest = [] then some v else none
  | none => none

/-- Parsed JSON event (services/json_parser.py, class ClaudeJsonEvent).
`event_type` is whatever value sits under the "type" key (Python does not
enforce the `str` annotation), `data` is the whole parsed object. -/
structure ClaudeJsonEvent where
  event_type : JVal
  data : JVal
  session_id : Option JVal
deriving DecidableEq, Repr

/-- ClaudeJsonEvent.from_dict: `type` defaults to "unknown". -/
def eventFromDict (d : JVal) : ClaudeJsonEvent :=
  { event_type := jgetD d (chars "type") (.jstr (chars "unknown"))
  , data := d
  , session_id := jget d (chars "session_id") }

/-- JsonEventParser.parse_line: strip, require a leading brace, then
`json.loads`. -/
def parse_line (line : Str) : Option ClaudeJsonEvent :=
  let l := pyStrip line
  if l = [] then none
  else if l.head? = some '\x7b' then
    match jsonLoads l with
    | some d => some (eventFromDict d)
    | none => none
  else none

/-- The line-joining loop of JsonEventParser.parse_output (json_parser.py
lines 72-102 plus the final flush at lines 104-108); `cur` is
`current_json`. -/
def parseLoop : List Str → Str → List ClaudeJsonEvent
  | [], cur => if cur = [] then [] else (parse_line cur).toList
  | line :: rest, cur =>
    let stripped := pyStrip line
    if stripped.head? = some '\x7b' then
      (if cur = [] then [] else (parse_line cur).toList) ++ parseLoop rest stripped
    else if cur ≠ [] ∧ stripped ≠ [] then
      match jsonLoads cur with
      | some _ => (parse_line cur).toList ++ parseLoop rest []
      | none => parseLoop rest (cur ++ stripped)
    else if stripped = [] ∧ cur ≠ [] then
      (parse_line cur).toList ++ parseLoop rest []
    else
      parseLoop rest cur

/-- JsonEventParser.parse_output: split the capture into lines and run the
wrap-joining loop with an empty candidate. -/
def parse_output (output : Str) : List ClaudeJsonEvent :=
  parseLoop (pySplit '\n' output) []

/-- Worker for `wrapRows`: the fuel only bounds the recursion (each row
consumes at least one character, so the string's length is enough). -/
def wrapRowsGo (w : Nat) : Nat → Str → List Str
  | _, [] => []
  | 0, _ :: _ => []
  | fuel + 1, c :: cs => (c :: cs.take (w - 1)) :: wrapRowsGo w fuel (cs.drop (w - 1))

/-- Hard-wrap a one-line string into terminal rows of width `w`
(the last row may be shorter); models how a terminal renders one long
line across several rows. -/
def wrapRows (w : Nat) (s : Str) : List Str := wrapRowsGo w s.length s

/-- The text a capture of the wrapped rendering yields: the rows joined
with newlines. -/
def wrapText (w : Nat) (s : Str) : Str := joinSep '\n' (wrapRows w s)

/-- Modelled from the spec: the `models` module that api/tasks.py,
api/hooks.py, services/json_monitor.py and services/status_poller.py
load (`from models import Task, TaskStatus, ClaudeStatus`) but is not
present under src/; the file src/models.py is an earlier prototype (it
has no ClaudeStatus, and a six-valued TaskStatus and a Task schema that
those modules do not use and that src/tests/test_models.py rejects).
TaskStatus follows spec section 3 ("status: one of pending, running,
waiting, completed, failed"), asserted value-for-value by
src/tests/test_models.py. -/
inductive TaskStatus where
  | pending | running | waiting | completed | failed
deriving DecidableEq, Repr

/-- Modelled from the spec: agentStatus, spec section 3 ("one of stopped,
starting, idle, busy, waiting"), asserted value-for-value by
src/tests/test_models.py (ClaudeStatus). -/
inductive ClaudeStatus where
  | stopped | starting | idle | busy | waiting
deriving DecidableEq, Repr

/-- Modelled from the spec: the Task record's fields that the embedded
code reads or writes (same missing `models` module; field names and
defaults as asserted by src/tests/test_models.py and used by api/tasks.py,
api/hooks.py, services/json_monitor.py, services/status_poller.py).
`claude_session_id` and `permission_prompt` hold the raw JSON values the
monitor assigns (strings on every real event). The rolling `last_output`
log is omitted: its updates are timestamped wall-clock text that no other
field or branch depends on. -/
structure TaskRec where
  id : Nat
  status : TaskStatus
  claude_status : ClaudeStatus
  claude_session_id : Option JVal
  permission_prompt : Option JVal
  tmux_session : Option Str
  stack_name : Option Str
  stack_cli_id : Option Str
  completed_at : Option Nat
  result : Option Str
deriving DecidableEq, Repr

/-- Python truthiness of an optional string column (None and "" falsy). -/
def optStrTruthy : Option Str → Bool
  | none => false
  | some s => !s.isEmpty

/-- GitButler invocations made by the monitor, in call order. -/
inductive HookCall where
  | preEdit : JVal → JVal → HookCall
  | postEdit : JVal → JVal → HookCall
  | discover : JVal → HookCall
  | commitStack : Str → HookCall
deriving DecidableEq, Repr

/-- Outcomes of the GitButler collaborator during one event: whether the
pre/post hooks raise, and discover_stack_for_session's result (`.error`
models a raise). commit_to_stack's own outcome has no further effect
inside the handler. -/
structure GbOracle where
  preRaises : Bool
  postRaises : Bool
  discoverResult : Except Unit (Option (Str × Str))

/-- Per-task monitor state: the task row, the tool_use pairing buffer
`_recent_tool_uses[task_id]`, and `_stack_discovered.get(task_id, False)`. -/
structure MState where
  task : TaskRec
  buffer : List JVal
  stackDiscovered : Bool
deriving DecidableEq, Repr

/-- `tool_name in ["Edit", "Write", "MultiEdit"]`. -/
def isEditToolName (v : JVal) : Bool :=
  v = .jstr (chars "Edit") || v = .jstr (chars "Write") || v = .jstr (chars "MultiEdit")

/-- The commit step ending the tool_result try-block: commit only when
the task has a truthy stack name. -/
def commitCalls (task : TaskRec) : List HookCall :=
  match task.stack_name with
  | some n => if n.isEmpty then [] else [HookCall.commitStack n]
  | none => []

/-- The tool_result try-block (json_monitor.py lines 357-388): post-edit
hook, then one-time stack discovery, then commit to the stack; a raise
inside skips the rest of the block and is caught by the enclosing except.
Returns the updated task, the updated `_stack_discovered` flag, and the
GitButler calls made. -/
def postEditBlock (gb : GbOracle) (task : TaskRec) (discovered : Bool)
    (fp tn : JVal) : TaskRec × Bool × List HookCall :=
  if gb.postRaises then (task, discovered, [.postEdit fp tn])
  else if discovered then
    (task, discovered, [.postEdit fp tn] ++ commitCalls task)
  else
    match gb.discoverResult with
    | .error _ => (task, discovered, [.postEdit fp tn, .discover fp])
    | .ok none => (task, discovered, [.postEdit fp tn, .discover fp] ++ commitCalls task)
    | .ok (some (n, i)) =>
      let task := { task with stack_name := some n, stack_cli_id := some i }
      (task, true, [.postEdit fp tn, .discover fp] ++ commitCalls task)

/-- JsonMonitor._handle_event (json_monitor.py lines 255-437) for one
task's event, restricted to events whose handling raises no exception
(see `wellFormedEvent`; a raise is caught by the handler's blanket except
after part of the in-memory mutation happened, and whether that partial
mutation persists depends on later ORM flushes — outside this embedding).
The timestamped `last_output` log append is omitted (see `Task`).
Database commits are modelled as immediate persistence. Returns the new
state and the GitButler calls made, in order. -/
def handle_event (gb : GbOracle) (st : MState) (e : ClaudeJsonEvent) :
    MState × List HookCall :=
  let task := st.task
  if e.event_type = .jstr (chars "session_start") then
    let sid := jget e.data (chars "session_id")
    if optTruthy sid then
      let task := { task with claude_session_id := sid, claude_status := .idle }
      let task :=
        if task.status = .waiting then
          { task with status := .running, permission_prompt := none }
        else task
      ({ st with task := task }, [])
    else (st, [])
  else if e.event_type = .jstr (chars "tool_use") then
    let task := { task with claude_status := .busy }
    let task :=
      if task.status = .waiting then
        { task with status := .running, permission_prompt := none }
      else task
    let tool_name := jgetD e.data (chars "toolName") (.jstr (chars "unknown"))
    let tool_input := jgetD e.data (chars "toolInput") (.jobj [])
    let file_path := jget tool_input (chars "file_path")
    let buffer := takeLast 10 (st.buffer ++ [e.data])
    let calls :=
      match file_path with
      | some fp =>
        if isEditToolName tool_name && jtruthy fp then [HookCall.preEdit fp tool_name]
        else []
      | none => []
    ({ st with task := task, buffer := buffer }, calls)
  else if e.event_type = .jstr (chars "tool_result") then
    let tool_use_id := jget e.data (chars "toolUseId")
    let found := st.buffer.reverse.find? (fun tu => jget tu (chars "id") == tool_use_id)
    match found with
    | none => ({ st with task := { task with claude_status := .idle } }, [])
    | some tu =>
      let tool_name := jget tu (chars "toolName")
      let tool_input := jgetD tu (chars "toolInput") (.jobj [])
      let file_path := jget tool_input (chars "file_path")
      let is_error := jgetD e.data (chars "isError") (.jbool false)
      match tool_name, file_path with
      | some tn, some fp =>
        if isEditToolName tn && jtruthy fp && !(jtruthy is_error) then
          let r := postEditBlock gb task st.stackDiscovered fp tn
          ({ st with
             task := { r.1 with claude_status := .idle },
             stackDiscovered := r.2.1 }, r.2.2)
        else ({ st with task := { task with claude_status := .idle } }, [])
      | _, _ => ({ st with task := { task with claude_status := .idle } }, [])
  else if e.event_type = .jstr (chars "result") then
    let sid := jget e.data (chars "sessionId")
    let task :=
      if optTruthy sid && !(optTruthy task.claude_session_id) then
        { task with claude_session_id := sid }
      else task
    ({ st with task := { task with claude_status := .idle } }, [])
  else if e.event_type = .jstr (chars "text") ∨ e.event_type = .jstr (chars "assistant") then
    let task :=
      if task.claude_status ≠ .busy then { task with claude_status := .busy } else task
    let task :=
      if task.status = .waiting then
        { task with status := .running, permission_prompt := none }
      else task
    ({ st with task := task }, [])
  else if e.event_type = .jstr (chars "permission_request") then
    let prompt := jgetD e.data (chars "prompt") (.jstr (chars "Permission requested"))
    ({ st with
       task := { task with
                 status := .waiting,
                 claude_status := .waiting,
                 permission_prompt := some prompt } }, [])
  else (st, [])

/-- Sequential processing of new events by one watcher cycle
(json_monitor.py lines 240-241). -/
def processEvents (gb : GbOracle) (st : MState) (evs : List ClaudeJsonEvent) : MState :=
  evs.foldl (fun s e => (handle_event gb s e).1) st

def objOrAbsent : Option JVal → Bool
  | none => true
  | some (.jobj _) => true
  | some _ => false

def strOrAbsent : Option JVal → Bool
  | none => true
  | some (.jstr _) => true
  | some _ => false

/-- A content block that `_format_event_log`'s assistant case handles
without raising (non-dict blocks are skipped by an isinstance guard;
dict blocks of type "text" must carry a string-or-absent "text"). -/
def textBlockOk : JVal → Bool
  | .jobj kvs =>
    if assocLast kvs (chars "type") == some (.jstr (chars "text"))
    then strOrAbsent (assocLast kvs (chars "text")) else true
  | _ => true

/-- A "content" value `_format_event_log` can iterate without raising
(lists item-wise, strings and dicts trivially; numbers, booleans and
null raise TypeError). -/
def contentOk : JVal → Bool
  | .jarr blocks => blocks.all textBlockOk
  | .jstr _ => true
  | .jobj _ => true
  | _ => false

/-- A "message" value the assistant case can process without raising. -/
def messageOk : JVal → Bool
  | .jobj kvs => contentOk ((assocLast kvs (chars "content")).getD (.jarr []))
  | _ => false

/-- Events whose `_handle_event` run (including `_format_event_log`)
raises no exception; every event the stream-json CLI emits has this
shape. -/
def wellFormedEvent (e : ClaudeJsonEvent) : Bool :=
  (match e.data with | .jobj _ => true | _ => false) &&
  (if e.event_type = .jstr (chars "tool_use")
    then objOrAbsent (jget e.data (chars "toolInput")) else true) &&
  (if e.event_type = .jstr (chars "text")
    then strOrAbsent (jget e.data (chars "text")) else true) &&
  (if e.event_type = .jstr (chars "assistant")
    then messageOk (jgetD e.data (chars "message") (.jobj [])) else true) &&
  (if e.event_type = .jstr (chars "error")
    then objOrAbsent (jget e.data (chars "error")) else true)

/-- The tail detect_status examines: the last 10 lines of the capture,
rejoined (status_detector.py line 57). -/
def detectTail (output : Str) : Str :=
  joinSep '\n' (takeLast 10 (pySplit '\n' output))

/-- StatusDetector.detect_status (status_detector.py lines 37-70): `cap`
is tmux.capture_output's outcome (`.error ()` models
SessionNotFoundError, `.ok` the captured text). The configured regex
pattern lists are embedded as match predicates over the examined text
(the algorithm is parametric in the `re` engine). -/
def detect_status (waitingPats idlePats : List (Str → Bool))
    (cap : Except Unit Str) : Option ClaudeStatus :=
  match cap with
  | .error _ => none
  | .ok output =>
    if output.isEmpty then some .stopped
    else
      let last_lines := detectTail output
      if waitingPats.any (fun p => p last_lines) then some .waiting
      else if idlePats.any (fun p => p last_lines) then some .idle
      else some .busy

/-- StatusPoller bookkeeping: the correction / frozen / orphan counters
and `_last_busy_check` (task id to the time it was first seen busy). -/
structure PollerSt where
  correction_count : Nat
  frozen_warnings : Nat
  orphan_cleanups : Nat
  last_busy : List (Nat × Nat)
deriving DecidableEq, Repr

def lbGet (m : List (Nat × Nat)) (k : Nat) : Option Nat :=
  (m.find? (fun p => p.1 = k)).map Prod.snd

def lbSet (m : List (Nat × Nat)) (k : Nat) (v : Nat) : List (Nat × Nat) :=
  (k, v) :: m.filter (fun p => p.1 ≠ k)

def lbDel (m : List (Nat × Nat)) (k : Nat) : List (Nat × Nat) :=
  m.filter (fun p => p.1 ≠ k)

/-- One task's reconciliation inside StatusPoller._poll_once
(status_poller.py lines 77-142). `det` abstracts
`self.detector.detect_status` for a task id (`.error ()` models an
exception escaping it); `now` is the wall clock in seconds and `thr` the
frozen threshold. `.error` propagates the raise, carrying the poller
bookkeeping mutated so far (instance attributes are not rolled back). -/
def reconcileTask (det : Nat → Except Unit (Option ClaudeStatus))
    (now thr : Nat) (pst : PollerSt) (task : TaskRec) :
    Except PollerSt (PollerSt × TaskRec) :=
  if !(optStrTruthy task.tmux_session) then .ok (pst, task)
  else
    match det task.id with
    | .error _ => .error pst
    | .ok none =>
      if task.claude_status ≠ .stopped then
        .ok ({ pst with orphan_cleanups := pst.orphan_cleanups + 1 },
             { task with claude_status := .stopped, claude_session_id := none })
      else .ok (pst, task)
    | .ok (some ds) =>
      let pst :=
        if ds = .busy then
          match lbGet pst.last_busy task.id with
          | none => { pst with last_busy := lbSet pst.last_busy task.id now }
          | some t0 =>
            if now - t0 > thr then
              { pst with frozen_warnings := pst.frozen_warnings + 1 }
            else pst
        else { pst with last_busy := lbDel pst.last_busy task.id }
      if ds ≠ task.claude_status then
        let task := { task with claude_status := ds }
        let task :=
          if ds = .waiting then { task with status := .waiting }
          else if task.status = .waiting ∧ ds = .idle then
            { task with status := .running }
          else task
        .ok ({ pst with correction_count := pst.correction_count + 1 }, task)
      else .ok (pst, task)

/-- The for-loop of StatusPoller._poll_once over the task table (the db
query's `status in (running, waiting)` filter is the skip guard here);
a raise aborts the loop before the final commit. -/
def pollBody (det : Nat → Except Unit (Option ClaudeStatus)) (now thr : Nat) :
    PollerSt → List TaskRec → Except PollerSt (PollerSt × List TaskRec)
  | pst, [] => .ok (pst, [])
  | pst, t :: ts =>
    if t.status = .running ∨ t.status = .waiting then
      match reconcileTask det now thr pst t with
      | .error p => .error p
      | .ok (p1, t1) =>
        match pollBody det now thr p1 ts with
        | .error p => .error p
        | .ok (p2, ts2) => .ok (p2, t1 :: ts2)
    else
      match pollBody det now thr pst ts with
      | .error p => .error p
      | .ok (p2, ts2) => .ok (p2, t :: ts2)

/-- StatusPoller._poll_once (status_poller.py lines 66-147): reconcile
every selected task, committing the task updates only at the end of the
cycle; any exception is caught at cycle level, so the uncommitted task
changes roll back while the poller's in-memory bookkeeping keeps the
mutations made before the raise. -/
def pollOnce (det : Nat → Except Unit (Option ClaudeStatus)) (now thr : Nat)
    (pst : PollerSt) (tasks : List TaskRec) : PollerSt × List TaskRec :=
  match pollBody det now thr pst tasks with
  | .ok r => r
  | .error p => (p, tasks)

/-- Successful outcome of complete_task / fail_task: the updated task row
and whether a live tmux session was actually killed (kill_task_session
raises SessionNotFoundError iff none exists, which both endpoints
swallow). -/
structure ActionOk where
  task : TaskRec
  killedSession : Bool
deriving DecidableEq, Repr

/-- api/tasks.py complete_task (lines 635-699). `sessionAlive` abstracts
tmux session existence; the GitButler stop hook runs under its own
try/except and changes no task state either way, so only the task
mutation and the kill are modelled. `.error` carries the HTTPException
status code. -/
def complete_task (sessionAlive : Bool) (now : Nat) (result : Option Str)
    (task : TaskRec) : Except Nat ActionOk :=
  if ¬(task.status = .running ∨ task.status = .waiting) then .error 400
  else
    .ok { task := { task with
                    status := .completed,
                    claude_status := .stopped,
                    claude_session_id := none,
                    completed_at := some now,
                    result := result },
          killedSession := sessionAlive }

/-- The optional stack deletion in fail_task: `deleteStackWorks`
abstracts whether gitbutler.delete_stack succeeds (a GitButlerError is
swallowed, leaving the stack fields in place). -/
def pruneStack (deleteStackWorks deleteStack : Bool) (task : TaskRec) : TaskRec :=
  if deleteStack && optStrTruthy task.stack_name then
    if deleteStackWorks then
      { task with stack_name := none, stack_cli_id := none }
    else task
  else task

/-- api/tasks.py fail_task (lines 702-759), with `pruneStack` the
optional stack deletion above. -/
def fail_task (sessionAlive deleteStackWorks : Bool) (now : Nat)
    (reason : Option Str) (deleteStack : Bool) (task : TaskRec) :
    Except Nat ActionOk :=
  if ¬(task.status = .running ∨ task.status = .waiting ∨ task.status = .pending) then
    .error 400
  else
    .ok { task := { pruneStack deleteStackWorks deleteStack task with
                    status := .failed,
                    claude_status := .stopped,
                    claude_session_id := none,
                    completed_at := some now,
                    result := reason },
          killedSession := sessionAlive }

/-- Response of the hook endpoints (api/hooks.py HookResponse); the
free-text `message` field is omitted. -/
structure HookResponse where
  status : Str
  task_id : Option Nat
deriving DecidableEq, Repr

/-- api/hooks.py find_task_by_session_id (lines 56-59): first task whose
claude_session_id column equals the payload's session id string. -/
def find_task_by_session_id (tasks : List TaskRec) (sid : Str) : Option TaskRec :=
  tasks.find? (fun t => t.claude_session_id == some (.jstr sid))

/-- Update the first task matching `p` (the row the db query returned). -/
def updateFirst (p : TaskRec → Bool) (f : TaskRec → TaskRec) :
    List TaskRec → List TaskRec
  | [] => []
  | t :: ts => if p t then f t :: ts else t :: updateFirst p f ts

def sidMatches (sid : Str) (t : TaskRec) : Bool :=
  t.claude_session_id == some (.jstr sid)

/-- api/hooks.py hook_stop (lines 128-163). -/
def hook_stop (tasks : List TaskRec) (sid : Str) : HookResponse × List TaskRec :=
  match find_task_by_session_id tasks sid with
  | none => ({ status := chars "ignored", task_id := none }, tasks)
  | some t =>
    let f := fun (task : TaskRec) =>
      let task := { task with claude_status := ClaudeStatus.idle }
      if task.status = .waiting then
        { task with status := .running, permission_prompt := none }
      else task
    ({ status := chars "ok", task_id := some t.id }, updateFirst (sidMatches sid) f tasks)

/-- api/hooks.py hook_permission_request (lines 166-202). -/
def hook_permission_request (tasks : List TaskRec) (sid : Str) :
    HookResponse × List TaskRec :=
  match find_task_by_session_id tasks sid with
  | none => ({ status := chars "ignored", task_id := none }, tasks)
  | some t =>
    let f := fun (task : TaskRec) =>
      { task with
        claude_status := ClaudeStatus.waiting,
        status := TaskStatus.waiting,
        permission_prompt := some (.jstr (chars "Claude is waiting for permission")) }
    ({ status := chars "ok", task_id := some t.id }, updateFirst (sidMatches sid) f tasks)

/-- api/hooks.py hook_session_end (lines 205-236). -/
def hook_session_end (tasks : List TaskRec) (sid : Str) :
    HookResponse × List TaskRec :=
  match find_task_by_session_id tasks sid with
  | none => ({ status := chars "ignored", task_id := none }, tasks)
  | some t =>
    let f := fun (task : TaskRec) =>
      { task with claude_session_id := none, claude_status := ClaudeStatus.stopped }
    ({ status := chars "ok", task_id := some t.id }, updateFirst (sidMatches sid) f tasks)

/-- api/hooks.py hook_notification (lines 239-269). -/
def hook_notification (tasks : List TaskRec) (sid : Str) :
    HookResponse × List TaskRec :=
  match find_task_by_session_id tasks sid with
  | none => ({ status := chars "ignored", task_id := none }, tasks)
  | some t =>
    let f := fun (task : TaskRec) =>
      if task.claude_status ≠ ClaudeStatus.waiting then
        { task with claude_status := ClaudeStatus.idle }
      else task
    ({ status := chars "ok", task_id := some t.id }, updateFirst (sidMatches sid) f tasks)

/-- services/tmux.py _session_id_for_task (lines 53-56):
`{session_prefix}-task-{task_id}` with the task id rendered as text
(a UUID string in api/tasks.py's usage). -/
def session_id_for_task (pfx : Str) (taskIdText : Str) : Str :=
  pfx ++ chars "-task-" ++ taskIdText

/-- Python `int(s)` on ASCII text: optional surrounding whitespace, an
optional sign, then decimal digits (`none` models ValueError; digit
grouping underscores are outside the modelled fragment). -/
def pyIntParse (s : Str) : Option Int :=
  let t := pyStrip s
  let su : Int × Str :=
    match t with
    | '-' :: r => (-1, r)
    | '+' :: r => (1, r)
    | _ => (1, t)
  if su.2 ≠ [] ∧ su.2.all isDigitCh then some (su.1 * digitsToNat su.2) else none

/-- TmuxService.list_task_sessions (tmux.py lines 523-545): `rc` and
`stdout` are the exit code and output of
`tmux list-sessions -F "#\x7bsession_name\x7d"`; lines carrying the
session naming convention are kept and their suffix parsed with `int`,
a ValueError skipping the line. -/
def list_task_sessions (sessionPfx : Str) (rc : Int) (stdout : Str) : List Int :=
  if rc ≠ 0 then []
  else
    let pfx := sessionPfx ++ chars "-task-"
    (pySplit '\n' (pyStrip stdout)).filterMap (fun line =>
      if pfx.isPrefixOf line then pyIntParse (line.drop pfx.length) else none)

/-- A concrete task row used by witnesses. -/
def taskFix : TaskRec :=
  { id := 7, status := .running, claude_status := .idle,
    claude_session_id := none, permission_prompt := none,
    tmux_session := some (chars "claude-task-7"),
    stack_name := none, stack_cli_id := none,
    completed_at := none, result := none }

/-- Fresh poller bookkeeping used by witnesses. -/
def pstFix : PollerSt :=
  { correction_count := 0, frozen_warnings := 0, orphan_cleanups := 0,
    last_busy := [] }

instance {e a : Type} [DecidableEq e] [DecidableEq a] : DecidableEq (Except e a)
  | .ok x, .ok y =>
    match inferInstanceAs (Decidable (x = y)) with
    | isTrue h => isTrue (h ▸ rfl)
    | isFalse h => isFalse (fun hh => h (Except.ok.inj hh))
  | .error x, .error y =>
    match inferInstanceAs (Decidable (x = y)) with
    | isTrue h => isTrue (h ▸ rfl)
    | isFalse h => isFalse (fun hh => h (Except.error.inj hh))
  | .ok _, .error _ => isFalse (fun h => Except.noConfusion h)
  | .error _, .ok _ => isFalse (fun h => Except.noConfusion h)

/-- A waiting task with a stored permission prompt. -/
def c3Task : TaskRec :=
  { id := 1, status := .waiting, claude_status := .waiting,
    claude_session_id := some (.jstr (chars "s1")),
    permission_prompt := some (.jstr (chars "Allow?")),
    tmux_session := some (chars "claude-task-1"),
    stack_name := none, stack_cli_id := none,
    completed_at := none, result := none }

def c5TaskA : TaskRec := { taskFix with id := 1 }

def c5TaskB : TaskRec := { taskFix with id := 2, claude_status := .busy }

/-- A detector that raises for task 1 and reports idle elsewhere. -/
def detC5 : Nat → Except Unit (Option ClaudeStatus) :=
  fun i => if i = 1 then .error () else .ok (some .idle)

/-- A GitButler oracle whose calls succeed and discover no stack. -/
def gbFix : GbOracle :=
  { preRaises := false, postRaises := false, discoverResult := .ok none }

/-- A task waiting on a permission prompt, as its monitor sees it. -/
def c8State : MState :=
  { task := { taskFix with
              status := .waiting, claude_status := .waiting,
              permission_prompt := some (.jstr (chars "Allow?")) },
    buffer := [], stackDiscovered := false }

/-- A plain text event. -/
def c8TextEv : ClaudeJsonEvent :=
  { event_type := .jstr (chars "text"),
    data := .jobj [(chars "text", .jstr (chars "hi"))],
    session_id := none }

/-- The tool_use payloads a sequence of events pushes into the pairing
buffer, in order. -/
def pushesOf (evs : List ClaudeJsonEvent) : List JVal :=
  evs.filterMap (fun e =>
    if e.event_type = .jstr (chars "tool_use") then some e.data else none)

/-- A tool_use event carrying an invocation id, a tool name and a file
path. -/
def mkToolUse (x nm fp : Str) : ClaudeJsonEvent :=
  { event_type := .jstr (chars "tool_use"),
    data := .jobj [(chars "id", .jstr x), (chars "toolName", .jstr nm),
      (chars "toolInput", .jobj [(chars "file_path", .jstr fp)])],
    session_id := none }

/-- A tool_result event for invocation id `x`. -/
def mkToolResult (x : Str) (isErr : Bool) : ClaudeJsonEvent :=
  { event_type := .jstr (chars "tool_result"),
    data := .jobj [(chars "toolUseId", .jstr x), (chars "isError", .jbool isErr)],
    session_id := none }

def isPostEditCall : HookCall → Bool
  | HookCall.postEdit _ _ => true
  | _ => false

/-- Ten interposed tool_use events with fresh ids and a non-editing tool. -/
def c2Mids10 : List ClaudeJsonEvent :=
  (List.range 10).map (fun i =>
    { event_type := .jstr (chars "tool_use"),
      data := .jobj [(chars "id", .jnum i), (chars "toolName", .jstr (chars "Bash"))],
      session_id := none })

/-- A one-line JSON document whose string payload contains a space. -/
def c1Doc : Str := chars "\x7b\"type\":\"text\",\"text\":\"a b\"\x7d"

/-- C4: the Task `status` field ranges over exactly the five values
pending, running, waiting, completed and failed. -/
theorem c4_status_values (s : TaskStatus) :
    s = .pending ∨ s = .running ∨ s = .waiting ∨ s = .completed ∨ s = .failed := by
  cases s <;> simp

/-- C7: status detection yields no status when the session is gone,
stopped on an empty capture, waiting whenever a waiting pattern matches
the examined tail (taking priority over idle), otherwise idle whenever an
idle pattern matches the tail, and busy otherwise. -/
theorem c7_detect_cases (wp ip : List (Str → Bool)) (cap : Except Unit Str) :
    (cap = .error () → detect_status wp ip cap = none) ∧
    (cap = .ok [] → detect_status wp ip cap = some .stopped) ∧
    (∀ out, cap = .ok out → out ≠ [] →
      (wp.any (fun p => p (detectTail out)) = true →
        detect_status wp ip cap = some .waiting) ∧
      (wp.any (fun p => p (detectTail out)) = false →
        ip.any (fun p => p (detectTail out)) = true →
        detect_status wp ip cap = some .idle) ∧
      (wp.any (fun p => p (detectTail out)) = false →
        ip.any (fun p => p (detectTail out)) = false →
        detect_status wp ip cap = some .busy)) := by
  refine ⟨?_, ?_, ?_⟩
  · intro h; rw [h]; rfl
  · intro h; rw [h]; rfl
  · intro out hcap hne
    subst hcap
    have hemp : out.isEmpty = false := by
      cases out with
      | nil => exact absurd rfl hne
      | cons a l => rfl
    refine ⟨?_, ?_, ?_⟩
    · intro hw; simp [detect_status, hemp, hw]
    · intro hw hi; simp [detect_status, hemp, hw, hi]
    · intro hw hi; simp [detect_status, hemp, hw, hi]

/-- C7 witness: a concrete capture whose tail matches a waiting pattern. -/
theorem c7_detect_cases_witness :
    detect_status [fun s => decide ((chars "(y/n)") <:+: s)] [fun _ => true]
      (.ok (chars "Allow edit? (y/n)")) = some .waiting :=
  ((c7_detect_cases [fun s => decide ((chars "(y/n)") <:+: s)] [fun _ => true]
      (.ok (chars "Allow edit? (y/n)"))).2.2
    (chars "Allow edit? (y/n)") rfl (by decide)).1 (by decide)

/-- C10: when no task record carries the agent session id, each of the
stop, permission-request, session-end and notification hook callbacks
answers "ignored" and leaves every task record unchanged. -/
theorem c10_unknown_session_ignored (tasks : List TaskRec) (sid : Str)
    (h : ∀ t ∈ tasks, t.claude_session_id ≠ some (.jstr sid)) :
    hook_stop tasks sid = ({ status := chars "ignored", task_id := none }, tasks) ∧
    hook_permission_request tasks sid
      = ({ status := chars "ignored", task_id := none }, tasks) ∧
    hook_session_end tasks sid
      = ({ status := chars "ignored", task_id := none }, tasks) ∧
    hook_notification tasks sid
      = ({ status := chars "ignored", task_id := none }, tasks) := by
  have hf : find_task_by_session_id tasks sid = none := by
    rw [find_task_by_session_id, List.find?_eq_none]
    intro t ht
    simp only [beq_iff_eq]
    exact h t ht
  refine ⟨?_, ?_, ?_, ?_⟩ <;>
    simp [hook_stop, hook_permission_request, hook_session_end,
      hook_notification, hf]

/-- C10 witness: a concrete task table with no matching session id. -/
theorem c10_unknown_session_ignored_witness :
    hook_stop [taskFix] (chars "s-unknown")
      = ({ status := chars "ignored", task_id := none }, [taskFix]) :=
  (c10_unknown_session_ignored [taskFix] (chars "s-unknown") (by decide)).1

/-- C3 fails as stated: completing a waiting task succeeds but leaves the
stored permissionPrompt in place instead of clearing it. -/
theorem c3_counterexample :
    (match complete_task true 0 none c3Task with
     | .ok r => r.task.permission_prompt
     | .error _ => none) = some (.jstr (chars "Allow?")) := rfl

/-- C3 (amended): complete succeeds exactly from running/waiting and fail
also from pending; on success each kills the bound session treating its
prior absence as non-fatal, sets the terminal task status, sets the agent
status to stopped and clears agentSessionId — but neither operation
clears permissionPrompt (it is left unchanged). -/
theorem c3_terminal_ops (task : TaskRec) (alive dsw ds : Bool)
    (now : Nat) (res rsn : Option Str) :
    (∀ r, complete_task alive now res task = .ok r →
      (task.status = .running ∨ task.status = .waiting) ∧
      r.killedSession = alive ∧ r.task.status = .completed ∧
      r.task.claude_status = .stopped ∧ r.task.claude_session_id = none ∧
      r.task.permission_prompt = task.permission_prompt) ∧
    ((task.status = .running ∨ task.status = .waiting) →
      ∃ r, complete_task alive now res task = .ok r) ∧
    (∀ r, fail_task alive dsw now rsn ds task = .ok r →
      (task.status = .running ∨ task.status = .waiting ∨ task.status = .pending) ∧
      r.killedSession = alive ∧ r.task.status = .failed ∧
      r.task.claude_status = .stopped ∧ r.task.claude_session_id = none ∧
      r.task.permission_prompt = task.permission_prompt) ∧
    ((task.status = .running ∨ task.status = .waiting ∨ task.status = .pending) →
      ∃ r, fail_task alive dsw now rsn ds task = .ok r) := by
  refine ⟨?_, ?_, ?_, ?_⟩
  · intro r hr
    by_cases hC : task.status = .running ∨ task.status = .waiting
    · rw [complete_task, if_neg (not_not_intro hC)] at hr
      injection hr with h
      subst h
      exact ⟨hC, rfl, rfl, rfl, rfl, rfl⟩
    · rw [complete_task, if_pos hC] at hr
      exact Except.noConfusion hr
  · intro hst
    exact ⟨_, by rw [complete_task, if_neg (not_not_intro hst)]⟩
  · intro r hr
    by_cases hC : task.status = .running ∨ task.status = .waiting ∨ task.status = .pending
    · rw [fail_task, if_neg (not_not_intro hC)] at hr
      injection hr with h
      subst h
      refine ⟨hC, rfl, rfl, rfl, rfl, ?_⟩
      show (pruneStack dsw ds task).permission_prompt = task.permission_prompt
      rw [pruneStack]
      split_ifs <;> rfl
    · rw [fail_task, if_pos hC] at hr
      exact Except.noConfusion hr
  · intro hst
    exact ⟨_, by rw [fail_task, if_neg (not_not_intro hst)]⟩

/-- C3 witness: the concrete waiting task is completed successfully. -/
theorem c3_terminal_ops_witness :
    ∃ r, complete_task true 0 none c3Task = .ok r :=
  (c3_terminal_ops c3Task true false false 0 none none).2.1 (Or.inr rfl)

/-- C6: for a running/waiting task with a recorded tmux session whose
underlying session is gone (detection yields no status), one poll cycle
stops the agent status, clears the agent session id and increments the
orphan counter; a further cycle in the same situation changes nothing
more (no duplicate increments once stopped). -/
theorem c6_orphan (det : Nat → Except Unit (Option ClaudeStatus)) (now thr : Nat)
    (pst : PollerSt) (task : TaskRec) (s : Str)
    (hstat : task.status = .running ∨ task.status = .waiting)
    (hsess : task.tmux_session = some s) (hs : s ≠ [])
    (hdet : det task.id = .ok none)
    (hcs : task.claude_status ≠ .stopped) :
    pollOnce det now thr pst [task] =
      ({ pst with orphan_cleanups := pst.orphan_cleanups + 1 },
       [{ task with claude_status := .stopped, claude_session_id := none }]) ∧
    pollOnce det now thr
        { pst with orphan_cleanups := pst.orphan_cleanups + 1 }
        [{ task with claude_status := .stopped, claude_session_id := none }] =
      ({ pst with orphan_cleanups := pst.orphan_cleanups + 1 },
       [{ task with claude_status := .stopped, claude_session_id := none }]) := by
  have htruthy : optStrTruthy task.tmux_session = true := by
    rw [hsess]
    cases s with
    | nil => exact absurd rfl hs
    | cons a l => rfl
  constructor <;>
    rcases hstat with h | h <;>
      simp [pollOnce, pollBody, reconcileTask, hdet, htruthy, hcs, h]

/-- C6 witness: a concrete running task whose session vanished. -/
theorem c6_orphan_witness :
    pollOnce (fun _ => .ok none) 0 300 pstFix [taskFix] =
      ({ pstFix with orphan_cleanups := 1 },
       [{ taskFix with claude_status := .stopped, claude_session_id := none }]) :=
  ((c6_orphan (fun _ => .ok none) 0 300 pstFix taskFix (chars "claude-task-7")
    (Or.inl rfl) rfl (by decide) rfl (by decide)).1).trans (by decide)

/-- If some selected task's status detection raises, the cycle's for-loop
raises (at that task or an earlier one). -/
theorem pollBody_raises (det : Nat → Except Unit (Option ClaudeStatus)) (now thr : Nat) :
    ∀ (tasks : List TaskRec) (pst : PollerSt),
      (∃ t ∈ tasks, (t.status = .running ∨ t.status = .waiting) ∧
        optStrTruthy t.tmux_session = true ∧ det t.id = .error ()) →
      ∃ p, pollBody det now thr pst tasks = .error p
  | [], _, h => by
    rcases h with ⟨t, ht, _⟩
    exact absurd ht (List.not_mem_nil t)
  | t :: ts, pst, h => by
    rcases h with ⟨u, hu, hself⟩
    rcases List.mem_cons.mp hu with rfl | hu'
    · rcases hself with ⟨hsel, htr, hdet⟩
      refine ⟨pst, ?_⟩
      rcases hsel with h1 | h1 <;>
        simp [pollBody, reconcileTask, h1, htr, hdet]
    · by_cases hselt : t.status = .running ∨ t.status = .waiting
      · cases hrec : reconcileTask det now thr pst t with
        | error p => exact ⟨p, by simp [pollBody, hselt, hrec]⟩
        | ok pr =>
          obtain ⟨p1, t1⟩ := pr
          obtain ⟨p, hp⟩ := pollBody_raises det now thr ts p1 ⟨u, hu', hself⟩
          exact ⟨p, by simp [pollBody, hselt, hrec, hp]⟩
      · obtain ⟨p, hp⟩ := pollBody_raises det now thr ts pst ⟨u, hu', hself⟩
        exact ⟨p, by simp [pollBody, hselt, hp]⟩

/-- C5 (amended): the poll cycle never propagates the exception — it is
caught at cycle level — but a raise while reconciling one task aborts the
cycle before its commit, so every task's reconciliation of that cycle is
rolled back and the remaining tasks are only reconciled on a later cycle. -/
theorem c5_cycle_rollback (det : Nat → Except Unit (Option ClaudeStatus))
    (now thr : Nat) (pst : PollerSt) (tasks : List TaskRec)
    (h : ∃ t ∈ tasks, (t.status = .running ∨ t.status = .waiting) ∧
      optStrTruthy t.tmux_session = true ∧ det t.id = .error ()) :
    (pollOnce det now thr pst tasks).2 = tasks := by
  obtain ⟨p, hp⟩ := pollBody_raises det now thr tasks pst h
  simp [pollOnce, hp]

/-- C5 fails as stated: task 1's detection raises, and busy task 2 —
which the same cycle alone would have reconciled to idle — is left
unreconciled in that cycle. -/
theorem c5_counterexample :
    (pollOnce detC5 0 300 pstFix [c5TaskA, c5TaskB]).2 = [c5TaskA, c5TaskB] ∧
    c5TaskB.claude_status = .busy ∧
    detC5 c5TaskB.id = .ok (some .idle) ∧
    (pollOnce detC5 0 300 pstFix [c5TaskB]).2 =
      [{ c5TaskB with claude_status := .idle }] := by decide

/-- C5 witness: the concrete cycle with a raising task returns the table
unchanged. -/
theorem c5_cycle_rollback_witness :
    (pollOnce detC5 0 300 pstFix [c5TaskA, c5TaskB]).2 = [c5TaskA, c5TaskB] :=
  c5_cycle_rollback detC5 0 300 pstFix [c5TaskA, c5TaskB] (by decide)

theorem head?_mem {a : Char} {l : Str} (h : l.head? = some a) : a ∈ l := by
  cases l with
  | nil => cases h
  | cons b t =>
    simp only [List.head?_cons, Option.some.injEq] at h
    exact h ▸ List.mem_cons_self b t

theorem dropWhile_eq_self_head (p : Char → Bool) (s : Str)
    (h : ∀ a, s.head? = some a → p a = false) : s.dropWhile p = s := by
  cases s with
  | nil => rfl
  | cons a l =>
    rw [List.dropWhile_cons, h a rfl]
    simp

theorem pyStrip_eq_self_ends (s : Str)
    (h1 : ∀ a, s.head? = some a → isPyWs a = false)
    (h2 : ∀ a, s.reverse.head? = some a → isPyWs a = false) :
    pyStrip s = s := by
  unfold pyStrip
  rw [dropWhile_eq_self_head _ _ h1, dropWhile_eq_self_head _ _ h2,
    List.reverse_reverse]

theorem joinSep_head (c : Char) (r : Str) (rs : List Str) (hr : r ≠ []) :
    (joinSep c (r :: rs)).head? = r.head? := by
  cases rs with
  | nil => rfl
  | cons r2 rs =>
    show (r ++ c :: joinSep c (r2 :: rs)).head? = r.head?
    cases r with
    | nil => exact absurd rfl hr
    | cons a l => rfl

theorem joinSep_ne_nil (c : Char) (r : Str) (rs : List Str) (hr : r ≠ []) :
    joinSep c (r :: rs) ≠ [] := by
  intro h
  have := joinSep_head c r rs hr
  rw [h] at this
  cases r with
  | nil => exact hr rfl
  | cons a l => cases this

theorem joinSep_rev_head (c : Char) :
    ∀ (names : List Str), names ≠ [] → (∀ nm ∈ names, nm ≠ []) →
      ∃ nm ∈ names, (joinSep c names).reverse.head? = nm.reverse.head?
  | [], h, _ => absurd rfl h
  | [r], _, _ => ⟨r, List.mem_cons_self r [], rfl⟩
  | r :: r2 :: rs, _, hne => by
    obtain ⟨nm, hmem, hh⟩ :=
      joinSep_rev_head c (r2 :: rs) (by simp)
        (fun nm h => hne nm (List.mem_cons_of_mem r h))
    refine ⟨nm, List.mem_cons_of_mem r hmem, ?_⟩
    show (r ++ c :: joinSep c (r2 :: rs)).reverse.head? = nm.reverse.head?
    rw [List.reverse_append, List.reverse_cons]
    cases ht : (joinSep c (r2 :: rs)).reverse with
    | nil =>
      exact absurd (by simpa using congrArg List.reverse ht)
        (joinSep_ne_nil c r2 rs (hne r2 (by simp)))
    | cons a as =>
      rw [ht] at hh
      simpa using hh

theorem stripJoin (names : List Str) (hne : names ≠ [])
    (hclean : ∀ nm ∈ names, nm ≠ [] ∧ ∀ x ∈ nm, isPyWs x = false) :
    pyStrip (joinSep '\n' names) = joinSep '\n' names := by
  apply pyStrip_eq_self_ends
  · intro a ha
    cases names with
    | nil => exact absurd rfl hne
    | cons r rs =>
      rw [joinSep_head '\n' r rs (hclean r (List.mem_cons_self r rs)).1] at ha
      exact (hclean r (List.mem_cons_self r rs)).2 a (head?_mem ha)
  · intro a ha
    obtain ⟨nm, hmem, hh⟩ :=
      joinSep_rev_head '\n' names hne (fun nm h => (hclean nm h).1)
    rw [hh] at ha
    exact (hclean nm hmem).2 a (List.mem_reverse.mp (head?_mem ha))

theorem pySplit_ne_nil (c : Char) (s : Str) : pySplit c s ≠ [] := by
  cases s with
  | nil => simp [pySplit]
  | cons x xs =>
    cases hm : pySplit c xs with
    | nil => simp [pySplit, hm]
    | cons r rs =>
      simp only [pySplit, hm]
      split <;> simp

theorem pySplit_no_sep (c : Char) (r : Str) (h : c ∉ r) : pySplit c r = [r] := by
  induction r with
  | nil => rfl
  | cons x xs ih =>
    have hx : ¬(x = c) := fun he => h (he ▸ List.mem_cons_self x xs)
    have hxs : c ∉ xs := fun hm => h (List.mem_cons_of_mem x hm)
    rw [pySplit, ih hxs]
    simp [hx]

theorem pySplit_append (c : Char) (r t : Str) (h : c ∉ r) :
    pySplit c (r ++ c :: t) = r :: pySplit c t := by
  induction r with
  | nil =>
    simp only [List.nil_append]
    rw [pySplit]
    cases hm : pySplit c t with
    | nil => exact absurd hm (pySplit_ne_nil c t)
    | cons r rs => simp
  | cons x xs ih =>
    have hx : ¬(x = c) := fun he => h (he ▸ List.mem_cons_self x xs)
    have hxs : c ∉ xs := fun hm => h (List.mem_cons_of_mem x hm)
    simp only [List.cons_append]
    rw [pySplit, ih hxs]
    simp [hx]

theorem pySplit_joinSep (c : Char) :
    ∀ (names : List Str), names ≠ [] → (∀ nm ∈ names, c ∉ nm) →
      pySplit c (joinSep c names) = names
  | [], h, _ => absurd rfl h
  | [r], _, h => pySplit_no_sep c r (h r (List.mem_cons_self r []))
  | r :: r2 :: rs, _, h => by
    show pySplit c (r ++ c :: joinSep c (r2 :: rs)) = r :: r2 :: rs
    rw [pySplit_append c r _ (h r (List.mem_cons_self r _)),
      pySplit_joinSep c (r2 :: rs) (by simp)
        (fun nm hm => h nm (List.mem_cons_of_mem r hm))]

theorem isPrefixOf_append_self (a b : Str) : a.isPrefixOf (a ++ b) = true := by
  induction a with
  | nil => simp [List.isPrefixOf]
  | cons x xs ih => simp [List.isPrefixOf, ih]

/-- C9 (amended): the active-session enumeration returns the task ids of
live sessions following the naming convention whose id suffix renders as
a decimal integer; sessions named with non-integer ids (in particular the
UUID task ids create_task_session is called with by api/tasks.py) are
omitted. For every listed name `prefix-task-D` with `int(D) = n`, `n` is
in the enumeration. -/
theorem c9_enumeration (pfx ds : Str) (names : List Str) (n : Int)
    (hne : names ≠ [])
    (hclean : ∀ nm ∈ names, nm ≠ [] ∧ ∀ x ∈ nm, isPyWs x = false)
    (hmem : session_id_for_task pfx ds ∈ names)
    (hparse : pyIntParse ds = some n) :
    n ∈ list_task_sessions pfx 0 (joinSep '\n' names) := by
  have hnosep : ∀ nm ∈ names, '\n' ∉ nm := by
    intro nm hm hx
    exact absurd ((hclean nm hm).2 '\n' hx) (by decide)
  rw [list_task_sessions, if_neg (by decide),
    stripJoin names hne hclean, pySplit_joinSep '\n' names hne hnosep]
  apply List.mem_filterMap.mpr
  refine ⟨session_id_for_task pfx ds, hmem, ?_⟩
  show (if (pfx ++ chars "-task-").isPrefixOf (session_id_for_task pfx ds) then
          pyIntParse ((session_id_for_task pfx ds).drop (pfx ++ chars "-task-").length)
        else none) = some n
  rw [session_id_for_task, isPrefixOf_append_self, if_pos rfl,
    List.drop_left, hparse]

/-- C9 witness: an integer-suffixed session name is enumerated. -/
theorem c9_enumeration_witness :
    (42 : Int) ∈ list_task_sessions (chars "claude") 0
      (joinSep '\n' [chars "claude-task-42", chars "mysession"]) :=
  c9_enumeration (chars "claude") (chars "42")
    [chars "claude-task-42", chars "mysession"] 42
    (by decide) (by decide) (by decide) (by decide)

/-- C9 fails as stated: the one live session is named by the convention
for a (UUID) task id, yet the enumeration returns nothing — `int()` on
the UUID suffix raises ValueError and the line is skipped. -/
theorem c9_counterexample :
    list_task_sessions (chars "claude") 0
      (session_id_for_task (chars "claude")
        (chars "8f14e45f-ceea-4678-a7bb-0f2eb3e4c2a9")) = [] := by decide

/-- One tool_use/text/assistant event takes a waiting task to running
with a cleared prompt, and keeps a running task with a cleared prompt
there. -/
theorem handle_status_step (gb : GbOracle) (st : MState) (e : ClaudeJsonEvent)
    (hk : e.event_type = .jstr (chars "tool_use") ∨
      e.event_type = .jstr (chars "text") ∨
      e.event_type = .jstr (chars "assistant"))
    (hst : st.task.status = .waiting ∨
      (st.task.status = .running ∧ st.task.permission_prompt = none)) :
    (handle_event gb st e).1.task.status = .running ∧
    (handle_event gb st e).1.task.permission_prompt = none := by
  have d1 : chars "tool_use" ≠ chars "session_start" := by decide
  have d2 : chars "text" ≠ chars "session_start" := by decide
  have d3 : chars "text" ≠ chars "tool_use" := by decide
  have d4 : chars "text" ≠ chars "tool_result" := by decide
  have d5 : chars "text" ≠ chars "result" := by decide
  have d6 : chars "assistant" ≠ chars "session_start" := by decide
  have d7 : chars "assistant" ≠ chars "tool_use" := by decide
  have d8 : chars "assistant" ≠ chars "tool_result" := by decide
  have d9 : chars "assistant" ≠ chars "result" := by decide
  rcases hk with he | he | he <;>
    rcases hst with hw | ⟨hr, hp⟩ <;>
    first
      | (simp [handle_event, he, d1, d2, d3, d4, d5, d6, d7, d8, d9, hw] <;>
          split_ifs <;> simp_all)
      | (simp [handle_event, he, d1, d2, d3, d4, d5, d6, d7, d8, d9, hr, hp] <;>
          split_ifs <;> simp_all)

/-- Running-with-cleared-prompt is preserved by any sequence of
tool_use/text/assistant events. -/
theorem processEvents_status (gb : GbOracle) :
    ∀ (evs : List ClaudeJsonEvent) (st : MState),
      (∀ e ∈ evs, e.event_type = .jstr (chars "tool_use") ∨
        e.event_type = .jstr (chars "text") ∨
        e.event_type = .jstr (chars "assistant")) →
      st.task.status = .running → st.task.permission_prompt = none →
      (processEvents gb st evs).task.status = .running ∧
      (processEvents gb st evs).task.permission_prompt = none
  | [], st, _, h1, h2 => ⟨h1, h2⟩
  | e :: es, st, hk, h1, h2 => by
    have hstep := handle_status_step gb st e (hk e (List.mem_cons_self e es))
      (Or.inr ⟨h1, h2⟩)
    exact processEvents_status gb es ((handle_event gb st e).1)
      (fun e' he' => hk e' (List.mem_cons_of_mem e he')) hstep.1 hstep.2

/-- C8: while a task is waiting, a run of tool_use/text/assistant events
moves it to running (clearing the prompt) at the first event, and every
later prefix of the run leaves it running with the prompt still cleared —
the collapse happens exactly once and subsequent events are no-ops for
the status. -/
theorem c8_waiting_collapse (gb : GbOracle) (st : MState)
    (evs : List ClaudeJsonEvent)
    (hw : st.task.status = .waiting)
    (hk : ∀ e ∈ evs, (e.event_type = .jstr (chars "tool_use") ∨
        e.event_type = .jstr (chars "text") ∨
        e.event_type = .jstr (chars "assistant")) ∧ wellFormedEvent e = true) :
    ∀ n, 1 ≤ n → n ≤ evs.length →
      (processEvents gb st (evs.take n)).task.status = .running ∧
      (processEvents gb st (evs.take n)).task.permission_prompt = none := by
  intro n h1 h2
  cases evs with
  | nil =>
    simp only [List.length_nil] at h2
    omega
  | cons e es =>
    cases n with
    | zero => omega
    | succ m =>
      rw [List.take_succ_cons]
      have hstep := handle_status_step gb st e
        ((hk e (List.mem_cons_self e es)).1) (Or.inl hw)
      exact processEvents_status gb (es.take m) ((handle_event gb st e).1)
        (fun e' he' =>
          (hk e' (List.mem_cons_of_mem e (List.take_subset m es he'))).1)
        hstep.1 hstep.2

/-- C8 witness: two text events on a concrete waiting task. -/
theorem c8_waiting_collapse_witness :
    (processEvents gbFix c8State ([c8TextEv, c8TextEv].take 2)).task.status
      = .running :=
  (c8_waiting_collapse gbFix c8State [c8TextEv, c8TextEv] rfl (by decide)
    2 (by decide) (by decide)).1

theorem takeLast_of_le (n : Nat) (l : List α) (h : l.length ≤ n) :
    takeLast n l = l := by
  unfold takeLast
  rw [Nat.sub_eq_zero_of_le h, List.drop_zero]

theorem takeLast_length_le (n : Nat) (l : List α) :
    (takeLast n l).length ≤ n := by
  unfold takeLast
  rw [List.length_drop]
  omega

theorem takeLast_takeLast (n k : Nat) (l : List α) (h : k ≤ n) :
    takeLast k (takeLast n l) = takeLast k l := by
  unfold takeLast
  rw [List.drop_drop]
  congr 1
  rw [List.length_drop]
  omega

theorem takeLast_append_of_le (n : Nat) (a m : List α) (h : m.length ≤ n) :
    takeLast n (a ++ m) = takeLast (n - m.length) a ++ m := by
  unfold takeLast
  rw [List.length_append, List.drop_append_eq_append_drop]
  have h1 : a.length + m.length - n - a.length = 0 := by omega
  have h2 : a.length + m.length - n = a.length - (n - m.length) := by omega
  rw [h1, List.drop_zero, h2]

theorem takeLast_append_of_ge (n : Nat) (a m : List α) (h : n ≤ m.length) :
    takeLast n (a ++ m) = takeLast n m := by
  unfold takeLast
  rw [List.length_append, List.drop_append_eq_append_drop]
  have h1 : a.length ≤ a.length + m.length - n := by omega
  have h2 : a.length + m.length - n - a.length = m.length - n := by omega
  rw [List.drop_eq_nil_of_le h1, h2, List.nil_append]

theorem takeLast_append_takeLast (n : Nat) (a m : List α) :
    takeLast n (takeLast n a ++ m) = takeLast n (a ++ m) := by
  by_cases h : n ≤ m.length
  · rw [takeLast_append_of_ge n _ m h, takeLast_append_of_ge n a m h]
  · have h' : m.length ≤ n := by omega
    rw [takeLast_append_of_le n _ m h', takeLast_append_of_le n a m h',
      takeLast_takeLast n (n - m.length) a (by omega)]

theorem find?_append_none {p : α → Bool} {l1 : List α} (l2 : List α)
    (h : ∀ a ∈ l1, p a = false) : (l1 ++ l2).find? p = l2.find? p := by
  induction l1 with
  | nil => rfl
  | cons a l ih =>
    rw [List.cons_append, List.find?_cons_of_neg, ih]
    · intro b hb
      exact h b (List.mem_cons_of_mem a hb)
    · simp [h a (List.mem_cons_self a l)]

theorem pushesOf_append (u v : List ClaudeJsonEvent) :
    pushesOf (u ++ v) = pushesOf u ++ pushesOf v := by
  unfold pushesOf
  rw [List.filterMap_append]

/-- The pairing buffer after one event: tool_use appends (keeping the
last 10), everything else leaves it alone. -/
theorem handle_buffer (gb : GbOracle) (st : MState) (e : ClaudeJsonEvent) :
    (handle_event gb st e).1.buffer =
      (if e.event_type = .jstr (chars "tool_use")
       then takeLast 10 (st.buffer ++ [e.data]) else st.buffer) := by
  rw [handle_event]
  by_cases h1 : e.event_type = .jstr (chars "session_start")
  · have h2 : ¬e.event_type = .jstr (chars "tool_use") := by
      rw [h1]
      intro hc
      exact absurd (JVal.jstr.inj hc) (by decide)
    rw [if_pos h1, if_neg h2]
    dsimp only
    split_ifs <;> rfl
  · rw [if_neg h1]
    by_cases h2 : e.event_type = .jstr (chars "tool_use")
    · rw [if_pos h2, if_pos h2]
    · rw [if_neg h2, if_neg h2]
      by_cases h3 : e.event_type = .jstr (chars "tool_result")
      · rw [if_pos h3]
        dsimp only
        first
          | rfl
          | (split
             · rfl
             · split
               · split_ifs <;> rfl
               · rfl)
      · rw [if_neg h3]
        by_cases h4 : e.event_type = .jstr (chars "result")
        · rw [if_pos h4]
        · rw [if_neg h4]
          by_cases h5 : e.event_type = .jstr (chars "text") ∨
              e.event_type = .jstr (chars "assistant")
          · rw [if_pos h5]
          · rw [if_neg h5]
            by_cases h6 : e.event_type = .jstr (chars "permission_request")
            · rw [if_pos h6]
            · rw [if_neg h6]

/-- The pairing buffer after a cycle's events: the last 10 of every
push so far (for a buffer already within its bound). -/
theorem processEvents_buffer (gb : GbOracle) :
    ∀ (evs : List ClaudeJsonEvent) (st : MState), st.buffer.length ≤ 10 →
      (processEvents gb st evs).buffer = takeLast 10 (st.buffer ++ pushesOf evs)
  | [], st, h => by
    simp only [processEvents, List.foldl_nil, pushesOf, List.filterMap_nil,
      List.append_nil]
    rw [takeLast_of_le 10 st.buffer h]
  | e :: es, st, h => by
    have hb := handle_buffer gb st e
    have hstep : processEvents gb st (e :: es)
        = processEvents gb ((handle_event gb st e).1) es := rfl
    by_cases he : e.event_type = .jstr (chars "tool_use")
    · rw [if_pos he] at hb
      have hlen : ((handle_event gb st e).1).buffer.length ≤ 10 := by
        rw [hb]
        exact takeLast_length_le 10 _
      have ih := processEvents_buffer gb es ((handle_event gb st e).1) hlen
      rw [hstep, ih, hb, takeLast_append_takeLast]
      have hp : pushesOf (e :: es) = e.data :: pushesOf es := by
        unfold pushesOf
        rw [List.filterMap_cons]
        simp [he]
      rw [hp, List.append_assoc, List.singleton_append]
    · rw [if_neg he] at hb
      have hlen : ((handle_event gb st e).1).buffer.length ≤ 10 := by
        rw [hb]; exact h
      have ih := processEvents_buffer gb es ((handle_event gb st e).1) hlen
      rw [hstep, ih, hb]
      have hp : pushesOf (e :: es) = pushesOf es := by
        unfold pushesOf
        rw [List.filterMap_cons]
        simp [he]
      rw [hp]

/-- Only the opening post-edit invocation of the tool_result try-block is
a post-edit call. -/
theorem postEditBlock_filter (gb : GbOracle) (task : TaskRec)
    (disc : Bool) (fp tn : JVal) :
    ((postEditBlock gb task disc fp tn).2.2).filter isPostEditCall
      = [HookCall.postEdit fp tn] := by
  have hc : ∀ t : TaskRec, (commitCalls t).filter isPostEditCall = [] := by
    intro t
    unfold commitCalls
    cases t.stack_name with
    | none => rfl
    | some n =>
      dsimp only
      split_ifs <;> rfl
  unfold postEditBlock
  by_cases h1 : gb.postRaises = true
  · rw [if_pos h1]; rfl
  · rw [if_neg h1]
    by_cases h2 : disc = true
    · rw [if_pos h2]
      simp [isPostEditCall, List.filter_append, List.filter_cons, hc task]
    · rw [if_neg h2]
      cases hd : gb.discoverResult with
      | error e => rfl
      | ok r =>
        cases r with
        | none => simp [isPostEditCall, List.filter_cons, hc task]
        | some p =>
          obtain ⟨n, i⟩ := p
          simp [isPostEditCall, List.filter_cons, hc]

/-- C2 (amended): a tool_use with id `x` on a file-editing tool followed
later by a matching non-error tool_result makes the handler invoke the
post-edit hook exactly once for that tool_result, with the file path and
tool name of the most recently stored tool_use carrying that id (events
before that tool_use are arbitrary, so older same-id entries lose), and
the handler is total — provided at most 9 tool_use events intervene, as
the pairing buffer keeps only the last 10 entries. -/
theorem c2_pairing (gb : GbOracle) (st0 : MState) (x nm fp : Str)
    (mids1 mids2 : List ClaudeJsonEvent)
    (hbuf : st0.buffer = [])
    (_hwf : ∀ e ∈ mids1 ++ mids2, wellFormedEvent e = true)
    (hcount : (pushesOf mids2).length ≤ 9)
    (hnm : isEditToolName (.jstr nm) = true)
    (hfp : fp ≠ [])
    (hX2 : ∀ d ∈ pushesOf mids2, jget d (chars "id") ≠ some (.jstr x)) :
    ((handle_event gb
        (processEvents gb st0 (mids1 ++ mkToolUse x nm fp :: mids2))
        (mkToolResult x false)).2).filter isPostEditCall
      = [HookCall.postEdit (.jstr fp) (.jstr nm)] := by
  set st1 := processEvents gb st0 (mids1 ++ mkToolUse x nm fp :: mids2) with hst1
  have hb0 : st0.buffer.length ≤ 10 := by rw [hbuf]; simp
  have hb := processEvents_buffer gb (mids1 ++ mkToolUse x nm fp :: mids2) st0 hb0
  rw [hbuf, List.nil_append] at hb
  have hpush : pushesOf (mids1 ++ mkToolUse x nm fp :: mids2)
      = pushesOf mids1 ++ (mkToolUse x nm fp).data :: pushesOf mids2 := by
    rw [pushesOf_append]
    congr 1
  rw [hpush] at hb
  have hlen2 : ((mkToolUse x nm fp).data :: pushesOf mids2).length ≤ 10 := by
    rw [List.length_cons]
    omega
  rw [takeLast_append_of_le 10 _ _ hlen2] at hb
  have hfind : st1.buffer.reverse.find?
      (fun tu => jget tu (chars "id")
        == jget (mkToolResult x false).data (chars "toolUseId"))
      = some (mkToolUse x nm fp).data := by
    have hid : jget (mkToolResult x false).data (chars "toolUseId")
        = some (.jstr x) := rfl
    have hnone : ∀ a ∈ (pushesOf mids2).reverse,
        (jget a (chars "id") == some (JVal.jstr x)) = false := by
      intro a ha
      exact beq_eq_false_iff_ne.mpr (hX2 a (List.mem_reverse.mp ha))
    rw [hid, hb, List.reverse_append, List.reverse_cons, List.append_assoc,
      find?_append_none _ hnone]
    simp only [List.cons_append, List.nil_append]
    rw [List.find?_cons_of_pos]
    have hdid : jget (mkToolUse x nm fp).data (chars "id")
        = some (JVal.jstr x) := rfl
    rw [hdid]
    exact beq_self_eq_true _
  rw [handle_event]
  rw [if_neg (show ¬(mkToolResult x false).event_type
        = .jstr (chars "session_start") by
      intro hc
      exact absurd (JVal.jstr.inj hc) (by decide))]
  rw [if_neg (show ¬(mkToolResult x false).event_type
        = .jstr (chars "tool_use") by
      intro hc
      exact absurd (JVal.jstr.inj hc) (by decide))]
  rw [if_pos (show (mkToolResult x false).event_type
        = .jstr (chars "tool_result") from rfl)]
  dsimp only
  rw [hfind]
  dsimp only
  have htn : jget (mkToolUse x nm fp).data (chars "toolName")
      = some (.jstr nm) := rfl
  have hti : jget (jgetD (mkToolUse x nm fp).data (chars "toolInput") (.jobj []))
      (chars "file_path") = some (.jstr fp) := rfl
  rw [htn, hti]
  dsimp only
  have hcond : (isEditToolName (.jstr nm) && jtruthy (.jstr fp)
      && !jtruthy (jgetD (mkToolResult x false).data (chars "isError")
        (.jbool false))) = true := by
    have hie : jgetD (mkToolResult x false).data (chars "isError") (.jbool false)
        = .jbool false := rfl
    have hft : jtruthy (.jstr fp) = true := by
      cases fp with
      | nil => exact absurd rfl hfp
      | cons a l => rfl
    rw [hie, hnm, hft]
    rfl
  rw [if_pos hcond]
  exact postEditBlock_filter gb st1.task st1.stackDiscovered (.jstr fp) (.jstr nm)

/-- C2 fails as stated: with 10 unrelated tool_use events between the
Edit tool_use and its successful tool_result, the pairing entry is
evicted from the 10-entry ring buffer and the post-edit hook is never
invoked for that tool_result. -/
theorem c2_counterexample :
    ((handle_event gbFix
        (processEvents gbFix
          { task := taskFix, buffer := [], stackDiscovered := false }
          (mkToolUse (chars "X") (chars "Edit") (chars "/a.py") :: c2Mids10))
        (mkToolResult (chars "X") false)).2).filter isPostEditCall = [] := by
  decide

/-- C2 witness: one text event between the pair. -/
theorem c2_pairing_witness :
    ((handle_event gbFix
        (processEvents gbFix
          { task := taskFix, buffer := [], stackDiscovered := false }
          ([] ++ mkToolUse (chars "X") (chars "Edit") (chars "/a.py") :: [c8TextEv]))
        (mkToolResult (chars "X") false)).2).filter isPostEditCall
      = [HookCall.postEdit (.jstr (chars "/a.py")) (.jstr (chars "Edit"))] :=
  c2_pairing gbFix { task := taskFix, buffer := [], stackDiscovered := false }
    (chars "X") (chars "Edit") (chars "/a.py") [] [c8TextEv]
    rfl (by decide) (by decide) (by decide) (by decide) (by decide)

theorem pyStrip_eq_self_of_all (s : Str) (h : ∀ x ∈ s, isPyWs x = false) :
    pyStrip s = s :=
  pyStrip_eq_self_ends s (fun a ha => h a (head?_mem ha))
    (fun a ha => h a (List.mem_reverse.mp (head?_mem ha)))

theorem wrapRowsGo_flatten (w : Nat) :
    ∀ (fuel : Nat) (s : Str), s.length ≤ fuel →
      (wrapRowsGo w fuel s).flatten = s
  | fuel, [], _ => by cases fuel <;> rfl
  | 0, c :: cs, h => by rw [List.length_cons] at h; omega
  | fuel + 1, c :: cs, h => by
    show ((c :: cs.take (w - 1)) :: wrapRowsGo w fuel (cs.drop (w - 1))).flatten
      = c :: cs
    rw [List.length_cons] at h
    rw [List.flatten_cons,
      wrapRowsGo_flatten w fuel (cs.drop (w - 1))
        (by rw [List.length_drop]; omega),
      List.cons_append, List.take_append_drop]

theorem wrapRowsGo_ne_nil (w : Nat) :
    ∀ (fuel : Nat) (s : Str), ∀ r ∈ wrapRowsGo w fuel s, r ≠ []
  | fuel, [] => by cases fuel <;> (intro r hr; cases hr)
  | 0, c :: cs => by intro r hr; cases hr
  | fuel + 1, c :: cs => by
    intro r hr
    rcases List.mem_cons.mp hr with hr1 | hr2
    · rw [hr1]; simp
    · exact wrapRowsGo_ne_nil w fuel (cs.drop (w - 1)) r hr2

theorem wrapRows_join (w : Nat) (s : Str) : (wrapRows w s).flatten = s :=
  wrapRowsGo_flatten w s.length s (Nat.le_refl _)

theorem wrapRows_sub (w : Nat) (s : Str) (r : Str) (hr : r ∈ wrapRows w s) :
    ∀ x ∈ r, x ∈ s := by
  intro x hx
  have : x ∈ (wrapRows w s).flatten := List.mem_flatten.mpr ⟨r, hr, hx⟩
  rwa [wrapRows_join w s] at this

/-- The wrap-joining loop of parse_output, run on the remaining rows of a
hard-wrapped whitespace-free JSON document with the rows read so far
rejoined in `cur`, produces exactly the document's event: every probe of
an incomplete prefix fails, so the rows keep accumulating until the final
flush parses the whole document. -/
theorem parseLoop_wrap (s : Str) (obj : JVal)
    (hload : jsonLoads s = some obj)
    (hpre : ∀ i, i < s.length → 0 < i → jsonLoads (s.take i) = none)
    (hnws : ∀ x ∈ s, isPyWs x = false)
    (hhead : s.head? = some '\x7b') :
    ∀ (rows : List Str) (cur : Str),
      cur ≠ [] →
      cur ++ rows.flatten = s →
      (∀ r ∈ rows, r ≠ [] ∧ r.head? ≠ some '\x7b') →
      parseLoop rows cur = [eventFromDict obj]
  | [], cur, hcur, hcat, _ => by
    have hcs : cur = s := by simpa using hcat
    have hstrip : pyStrip s = s := pyStrip_eq_self_of_all s hnws
    rw [parseLoop, if_neg hcur, hcs]
    show (parse_line s).toList = [eventFromDict obj]
    rw [parse_line]
    try dsimp only
    rw [hstrip]
    rw [if_neg (show ¬s = [] by intro h; rw [h] at hhead; cases hhead)]
    rw [if_pos hhead, hload]
    rfl
  | r :: rest, cur, hcur, hcat, hrows => by
    obtain ⟨hrne, hrhead⟩ := hrows r (List.mem_cons_self r rest)
    have hrsub : ∀ x ∈ r, isPyWs x = false := by
      intro x hx
      apply hnws x
      rw [← hcat]
      exact List.mem_append_right cur
        (by rw [List.flatten_cons]; exact List.mem_append_left _ hx)
    have hstrip_r : pyStrip r = r := pyStrip_eq_self_of_all r hrsub
    have hjoin_pos : 0 < ((r :: rest).flatten).length := by
      rw [List.flatten_cons, List.length_append]
      cases r with
      | nil => exact absurd rfl hrne
      | cons a l => simp
    have hlt : cur.length < s.length := by
      rw [← hcat, List.length_append]
      omega
    have htake : s.take cur.length = cur := by
      rw [← hcat]
      exact List.take_left cur ((r :: rest).flatten)
    have hnone : jsonLoads cur = none := by
      rw [← htake]
      exact hpre cur.length hlt (List.length_pos.mpr hcur)
    rw [parseLoop]
    try dsimp only
    rw [hstrip_r, if_neg hrhead, if_pos (And.intro hcur hrne), hnone]
    exact parseLoop_wrap s obj hload hpre hnws hhead rest (cur ++ r)
      (fun h => hcur (List.append_eq_nil.mp h).1)
      (by rw [List.append_assoc, ← List.flatten_cons, hcat])
      (fun r' hr' => hrows r' (List.mem_cons_of_mem r hr'))

/-- C1 (amended): a single well-formed JSON object rendered as one
whitespace-free line, hard-wrapped across terminal rows at any width
(with continuation rows not beginning with a brace, as the claim already
stipulates), is parsed back by parse_output into exactly one event
carrying the original object and its type field. The whitespace-free
proviso is what the counterexample forces: each captured row is stripped
before rejoining, so a wrap boundary adjacent to whitespace inside the
rendering corrupts the payload. -/
theorem c1_wrap_roundtrip (s : Str) (obj : JVal) (w : Nat)
    (hload : jsonLoads s = some obj)
    (hpre : ∀ i, i < s.length → 0 < i → jsonLoads (s.take i) = none)
    (hnws : ∀ x ∈ s, isPyWs x = false)
    (hhead : s.head? = some '\x7b')
    (hcont : ∀ r ∈ (wrapRows w s).drop 1, r.head? ≠ some '\x7b') :
    parse_output (wrapText w s) = [eventFromDict obj] := by
  cases s with
  | nil => cases hhead
  | cons c cs =>
    have hc : c = '\x7b' := by
      simp only [List.head?_cons, Option.some.injEq] at hhead
      exact hhead
    have hrows_eq : wrapRows w (c :: cs)
        = (c :: cs.take (w - 1)) :: wrapRowsGo w cs.length (cs.drop (w - 1)) := rfl
    have hnosep : ∀ r ∈ wrapRows w (c :: cs), '\n' ∉ r := by
      intro r hr hx
      exact absurd (hnws '\n' (wrapRows_sub w (c :: cs) r hr '\n' hx)) (by decide)
    have hjoin_split : pySplit '\n' (joinSep '\n' (wrapRows w (c :: cs)))
        = wrapRows w (c :: cs) :=
      pySplit_joinSep '\n' _ (by rw [hrows_eq]; simp) hnosep
    rw [parse_output, wrapText, hjoin_split, hrows_eq, parseLoop]
    try dsimp only
    have hstrip0 : pyStrip (c :: cs.take (w - 1)) = c :: cs.take (w - 1) :=
      pyStrip_eq_self_of_all _ (fun x hx => hnws x
        (wrapRows_sub w (c :: cs) _ (by rw [hrows_eq]; exact List.mem_cons_self _ _) x hx))
    rw [hstrip0, if_pos (show (c :: cs.take (w - 1)).head? = some '\x7b' by
      rw [List.head?_cons, hc]), if_pos rfl, List.nil_append]
    apply parseLoop_wrap (c :: cs) obj hload hpre hnws hhead
    · simp
    · rw [wrapRowsGo_flatten w cs.length (cs.drop (w - 1))
        (by rw [List.length_drop]; omega),
        List.cons_append, List.take_append_drop]
    · intro r' hr'
      refine ⟨wrapRowsGo_ne_nil w cs.length (cs.drop (w - 1)) r' hr', ?_⟩
      apply hcont
      rw [hrows_eq]
      exact hr'

/-- C1 fails as stated: wrapping the document at width 25 puts the row
boundary right after the space inside the string payload "a b"; each row
is stripped before rejoining, so the reassembled object parses with
payload "ab" — one event is produced, but its payload differs from the
original object, although no continuation row begins with a brace. -/
theorem c1_counterexample :
    jsonLoads c1Doc = some (.jobj [(chars "type", .jstr (chars "text")),
      (chars "text", .jstr (chars "a b"))]) ∧
    (∀ r ∈ (wrapRows 25 c1Doc).drop 1, r.head? ≠ some '\x7b') ∧
    parse_output (wrapText 25 c1Doc)
      = [{ event_type := .jstr (chars "text"),
           data := .jobj [(chars "type", .jstr (chars "text")),
             (chars "text", .jstr (chars "ab"))],
           session_id := none }] ∧
    chars "ab" ≠ chars "a b" := by decide

/-- C1 witness: a compact document wrapped at width 4. -/
theorem c1_wrap_roundtrip_witness :
    parse_output (wrapText 4 (chars "\x7b\"type\":\"ping\"\x7d"))
      = [eventFromDict (.jobj [(chars "type", .jstr (chars "ping"))])] :=
  c1_wrap_roundtrip (chars "\x7b\"type\":\"ping\"\x7d")
    (.jobj [(chars "type", .jstr (chars "ping"))]) 4
    (by decide) (by decide) (by decide) (by decide) (by decide)
